import Mathlib

/-!
Verification development for the MCP text-editor server
(`src/text_editor/index.ts`).

The TypeScript source is shallowly embedded below.  JavaScript strings are
modelled as Lean `String`s (manipulated through explicit `List Char`
primitives so that every definition reduces in the kernel); the process-wide
mutable state (the file system contents touched by the handlers and the
`editHistory` map) is threaded explicitly through an `SState` record.  The
external `createTwoFilesPatch` function from the `diff` npm package is a
parameter (`ctfp`) of the handlers that use it: no claim inspects the diff
body, only the fencing and control flow around it.

Node's `path` module is modelled for absolute POSIX paths: `path.resolve`
on an absolute argument and `path.normalize` both collapse `.`/`..`/empty
segments, which is what `canonAbs` implements.  `fs.realpath` is an oracle
`String → Option String` supplied by the environment (`Env`).
-/

set_option maxRecDepth 4000

namespace TextEditor

/-! ## Character-level primitives for the JavaScript string operations -/

/-- Whitespace set used by `trim`, `trimStart` and the `/^\s*/` regex in the
source.  (JavaScript `\s` also contains vertical tab, form feed and Unicode
spaces; the claims only exercise space/tab/CR/LF.) -/
def isSpaceChar (c : Char) : Bool :=
  c = ' ' || c = '\t' || c = '\r' || c = '\n'

/-- The backtick character, used by the diff fencing code. -/
def backtickChar : Char := Char.ofNat 96

/-- The single-quote character, used by `$` substitution patterns. -/
def singleQuoteChar : Char := Char.ofNat 39

/-- `normalizeLineEndings` (source line 382): `text.replace(/\r\n/g, '\n')`.
The regex scan is left-to-right and non-overlapping, which is exactly this
recursion. -/
def normChars : List Char → List Char
  | [] => []
  | '\r' :: '\n' :: rest => '\n' :: normChars rest
  | c :: rest => c :: normChars rest

def normalizeLineEndings (text : String) : String :=
  String.mk (normChars text.toList)

/-- JavaScript `String.prototype.split` with a one-character separator:
`"".split(c) = [""]`, separators at the ends produce empty fields. -/
def splitOnChar (sep : Char) : List Char → List (List Char)
  | [] => [[]]
  | c :: rest =>
    if c = sep then [] :: splitOnChar sep rest
    else
      match splitOnChar sep rest with
      | [] => [[c]]
      | h :: t => (c :: h) :: t

def splitLines (s : String) : List String :=
  (splitOnChar '\n' s.toList).map String.mk

/-- `Array.prototype.join` with a one-character separator. -/
def joinWithChar (sep : Char) : List (List Char) → List Char
  | [] => []
  | [l] => l
  | l :: ls => l ++ sep :: joinWithChar sep ls

def joinLines (lines : List String) : String :=
  String.mk (joinWithChar '\n' (lines.map String.toList))

/-- Leading-whitespace run of a line: `line.match(/^\s*/)?.[0] || ''`. -/
def leadingWs (line : String) : List Char :=
  line.toList.takeWhile isSpaceChar

/-- `String.prototype.trimStart`. -/
def trimStartS (line : String) : String :=
  String.mk (line.toList.dropWhile isSpaceChar)

/-- `String.prototype.trim`. -/
def jsTrim (s : String) : String :=
  String.mk (((s.toList.dropWhile isSpaceChar).reverse.dropWhile isSpaceChar).reverse)

/-- `s.startsWith(pre)`. -/
def startsWithStr (s pre : String) : Bool :=
  pre.toList.isPrefixOf s.toList

/-- Linear scan `findIdxFrom p start steps`: the first index
`i ∈ [start, start+steps)` with `p i`, mirroring a `for` loop that runs
`steps` times from `start`. -/
def findIdxFrom (p : Nat → Bool) : Nat → Nat → Option Nat
  | _, 0 => none
  | start, steps + 1 =>
    if p start then some start else findIdxFrom p (start + 1) steps

/-- Does `sub` occur in `s` at position `i`? -/
def substrAt (s sub : List Char) (i : Nat) : Bool :=
  sub.isPrefixOf (s.drop i)

/-- `String.prototype.indexOf` (first occurrence, scanning from 0).  The scan
range `[0, s.length]` includes `s.length` so that the empty pattern matches
an empty string, as in JavaScript. -/
def findSubstrIdx (s sub : List Char) : Option Nat :=
  findIdxFrom (fun i => substrAt s sub i) 0 (s.length + 1)

/-- `String.prototype.includes`. -/
def containsSubstr (s sub : String) : Bool :=
  (findSubstrIdx s.toList sub.toList).isSome

/-- ECMAScript `GetSubstitution` for a string (non-regex) search, as used by
`String.prototype.replace(searchString, replaceString)`: `$$`, `$&`,
`` $` `` and `$'` are interpreted; every other `$` unit (including `$n`
with no capture groups and `$<`) is kept literally. -/
def getSubstitution (matched before after : List Char) : List Char → List Char
  | [] => []
  | c :: rest =>
    if c = '$' then
      match rest with
      | [] => ['$']
      | '$' :: rest2 => '$' :: getSubstitution matched before after rest2
      | '&' :: rest2 => matched ++ getSubstitution matched before after rest2
      | d :: rest2 =>
        if d = backtickChar then before ++ getSubstitution matched before after rest2
        else if d = singleQuoteChar then after ++ getSubstitution matched before after rest2
        else
          -- the unit `$d` is kept literally; since `d ≠ $` it cannot start
          -- another pattern, so scanning resumes after it
          '$' :: d :: getSubstitution matched before after rest2
    else c :: getSubstitution matched before after rest

/-- `s.replace(old, new)` with string arguments: replace the first
occurrence of `old`, interpreting `$` patterns in `new`; return `s`
unchanged when there is no occurrence. -/
def jsReplaceFirst (s old new : String) : String :=
  match findSubstrIdx s.toList old.toList with
  | none => s
  | some i =>
    let before := s.toList.take i
    let after := s.toList.drop (i + old.toList.length)
    String.mk (before ++ getSubstitution old.toList before after new.toList ++ after)

/-! ## PathGuard: `validatePath` (source lines 57-130)

`path.resolve` on an absolute argument and `path.normalize` coincide on the
inputs the server produces (absolute paths), and are modelled by `canonAbs`:
split on `/`, drop empty and `.` segments, and let `..` pop the previous
segment (saturating at the root, as `path.resolve` does for absolute
paths). -/

/-- Canonicalize an absolute POSIX path. -/
def canonAbs (p : String) : String :=
  let segs := (splitOnChar '/' p.toList).filter fun s => !s.isEmpty && s ≠ ['.']
  let segs2 := segs.foldl (fun acc s => if s = ['.', '.'] then acc.dropLast else acc ++ [s]) []
  String.mk ('/' :: joinWithChar '/' segs2)

/-- `normalizePath` (source line 57): `path.normalize(p)`; the server only
applies it to absolute paths, where it agrees with `canonAbs`. -/
def normalizePath (p : String) : String := canonAbs p

/-- `path.isAbsolute` for POSIX paths. -/
def isAbsolutePath (p : String) : Bool := startsWithStr p "/"

/-- `expandHome` (source line 61). -/
def expandHome (homedir filepath : String) : String :=
  if startsWithStr filepath "~/" || filepath = "~" then
    String.mk (homedir.toList ++ filepath.toList.drop 1)
  else filepath

/-- `path.dirname` on a canonical absolute path. -/
def dirname (p : String) : String :=
  let segs := (splitOnChar '/' p.toList).filter fun s => !s.isEmpty
  match segs.dropLast with
  | [] => "/"
  | segs2 => String.mk ('/' :: joinWithChar '/' segs2)

/-- The process environment seen by `validatePath`: home directory, working
directory, the allowed roots (already normalized at startup, source
line 69), and the `fs.realpath` oracle (`none` models a rejected promise,
e.g. `ENOENT`). -/
structure Env where
  homedir : String
  cwd : String
  allowedDirectories : List String
  realpath : String → Option String

/-- The `absolute` value computed at source lines 93-96: expand `~`, then
`path.resolve` (against `cwd` when relative). -/
def absolutize (env : Env) (requestedPath : String) : String :=
  let expandedPath := expandHome env.homedir requestedPath
  if isAbsolutePath expandedPath then canonAbs expandedPath
  else canonAbs (env.cwd ++ "/" ++ expandedPath)

/-- The parent-directory fallback, source lines 116-128.  Note that the
`Access denied - parent directory outside allowed directories` throw at
line 123 sits inside the inner `try`, so its own `catch` replaces it with
the `Parent directory does not exist` message. -/
def validatePathParent (env : Env) (absolute : String) : Except String String :=
  let parentDir := dirname absolute
  match env.realpath parentDir with
  | some realParentPath =>
    let normalizedParent := normalizePath realParentPath
    let isParentAllowed := env.allowedDirectories.any fun dir => startsWithStr normalizedParent dir
    if !isParentAllowed then
      Except.error ("Parent directory does not exist: " ++ parentDir)
    else
      Except.ok absolute
  | none => Except.error ("Parent directory does not exist: " ++ parentDir)

/-- `validatePath` (source lines 92-130).  The symlink check's
`Access denied - symlink target outside allowed directories` throw at
line 112 is inside the `try` block opened at line 107, so it is caught by
the `catch` at line 115 and control falls through to the parent-directory
fallback — exactly as modelled here. -/
def validatePath (env : Env) (requestedPath : String) : Except String String :=
  let absolute := absolutize env requestedPath
  let normalizedRequested := normalizePath absolute
  let isAllowed := env.allowedDirectories.any fun dir => startsWithStr normalizedRequested dir
  if !isAllowed then
    Except.error ("Access denied - path outside allowed directories: " ++ absolute)
  else
    match env.realpath absolute with
    | some realPath =>
      let normalizedReal := normalizePath realPath
      let isRealPathAllowed := env.allowedDirectories.any fun dir => startsWithStr normalizedReal dir
      if !isRealPathAllowed then
        -- the thrown access-denied error is swallowed by the catch at
        -- line 115; the parent-directory logic runs instead
        validatePathParent env absolute
      else
        Except.ok realPath
    | none => validatePathParent env absolute

/-- Did the `Except` computation succeed? -/
def exceptOk : Except String String → Bool
  | Except.ok _ => true
  | Except.error _ => false

/-- Is the normalization of `s` inside some allowed root, by the raw
string-prefix test the source uses (`startsWith`, line 101)? -/
def allowedBy (env : Env) (s : String) : Bool :=
  env.allowedDirectories.any fun dir => startsWithStr (normalizePath s) dir

/-- Case analysis on an optional value, as a Bool. -/
def optAny (f : α → Bool) : Option α → Bool
  | some a => f a
  | none => false

/-! ## Process state: the file system and the `editHistory` map

The handlers touch process-wide mutable state: file contents (through
`fs.readFile` / `fs.writeFile`) and the `editHistory` `Map` (source
line 88).  Both are association lists keyed by the resolved path. -/

def lookupAssoc (m : List (String × α)) (k : String) : Option α :=
  match m with
  | [] => none
  | kv :: rest => if kv.1 = k then some kv.2 else lookupAssoc rest k

def setAssoc (m : List (String × α)) (k : String) (v : α) : List (String × α) :=
  match m with
  | [] => [(k, v)]
  | kv :: rest => if kv.1 = k then (k, v) :: rest else kv :: setAssoc rest k v

structure SState where
  files : List (String × String)
  editHistory : List (String × List String)
deriving DecidableEq

def readFile (st : SState) (p : String) : Option String :=
  lookupAssoc st.files p

def writeFile (st : SState) (p content : String) : SState :=
  { st with files := setAssoc st.files p content }

/-- `MAX_HISTORY_SIZE` (source line 89). -/
def MAX_HISTORY_SIZE : Nat := 10

/-- `saveToHistory` (source lines 402-412): push, then drop the oldest entry
when the stack exceeds `MAX_HISTORY_SIZE`. -/
def saveToHistory (st : SState) (filePath content : String) : SState :=
  let history := (lookupAssoc st.editHistory filePath).getD []
  let history := history ++ [content]
  let history := if history.length > MAX_HISTORY_SIZE then history.drop 1 else history
  { st with editHistory := setAssoc st.editHistory filePath history }

/-! ## PatchEngine: `applyFileEdits` (source lines 414-495) -/

structure Edit where
  oldText : String
  newText : String
deriving DecidableEq

/-- The `isMatch` test of the fuzzy pass (source lines 448-451): the window
of `oldLines.length` buffer lines starting at `i` matches when every line
agrees after trimming.  The length conjunct records that the window is
complete, which the source's loop bound guarantees. -/
def isMatchAt (oldLines contentLines : List String) (i : Nat) : Bool :=
  let potentialMatch := (contentLines.drop i).take oldLines.length
  oldLines.length == potentialMatch.length &&
    (oldLines.zip potentialMatch).all fun pr => jsTrim pr.1 == jsTrim pr.2

/-- The fuzzy pass's scan (source line 444):
`for (let i = 0; i <= contentLines.length - oldLines.length; i++)`,
stopping at the first matching window. -/
def firstMatchIdx (oldLines contentLines : List String) : Option Nat :=
  if oldLines.length > contentLines.length then none
  else findIdxFrom (isMatchAt oldLines contentLines) 0 (contentLines.length - oldLines.length + 1)

/-- Reconstruction of one replacement line (source lines 456-466): line 0
gets the captured indentation; a later line gets it (padded by the
indentation delta, floored at zero — `Math.max(0, relativeIndent)`, which
is Nat subtraction here) only when both the corresponding old line and the
new line have nonempty leading whitespace, and is emitted unchanged
otherwise. -/
def reindentLine (oldLines : List String) (originalIndent : List Char) (j : Nat) (line : String) : String :=
  if j = 0 then String.mk originalIndent ++ trimStartS line
  else
    let oldIndent := leadingWs (oldLines.getD j "")
    let newIndent := leadingWs line
    if !oldIndent.isEmpty && !newIndent.isEmpty then
      String.mk (originalIndent ++ List.replicate (newIndent.length - oldIndent.length) ' ') ++ trimStartS line
    else line

/-- The buffer produced when the fuzzy pass fires at window index `i`
(source lines 453-471): reindent the new lines and splice them in place of
the window. -/
def fuzzyResultAt (contentLines oldLines : List String) (normalizedNew : String) (i : Nat) : String :=
  let originalIndent := leadingWs (contentLines.getD i "")
  let newLines := (splitLines normalizedNew).enum.map fun pr => reindentLine oldLines originalIndent pr.1 pr.2
  joinLines (contentLines.take i ++ newLines ++ contentLines.drop (i + oldLines.length))

/-- One iteration of the edit loop (source lines 429-477): exact substring
pass first, fuzzy line-window pass otherwise; `none` models the
`Could not find exact match` throw. -/
def applyOneEdit (modifiedContent : String) (edit : Edit) : Option String :=
  let normalizedOld := normalizeLineEndings edit.oldText
  let normalizedNew := normalizeLineEndings edit.newText
  if containsSubstr modifiedContent normalizedOld then
    some (jsReplaceFirst modifiedContent normalizedOld normalizedNew)
  else
    let oldLines := splitLines normalizedOld
    let contentLines := splitLines modifiedContent
    match firstMatchIdx oldLines contentLines with
    | some i => some (fuzzyResultAt contentLines oldLines normalizedNew i)
    | none => none

/-- The sequential edit loop (source lines 428-478), threading the evolving
buffer; the thrown message carries the un-normalized `edit.oldText`. -/
def applyEditsLoop (content : String) : List Edit → Except String String
  | [] => Except.ok content
  | edit :: rest =>
    match applyOneEdit content edit with
    | some modifiedContent => applyEditsLoop modifiedContent rest
    | none => Except.error ("Could not find exact match for edit:\n" ++ edit.oldText)

/-- `createUnifiedDiff` (source lines 386-399); `ctfp` is the external
`createTwoFilesPatch` from the `diff` package. -/
def createUnifiedDiff (ctfp : String → String → String → String → String → String → String)
    (originalContent newContent : String) (filepath : String) : String :=
  ctfp filepath filepath (normalizeLineEndings originalContent) (normalizeLineEndings newContent)
    "original" "modified"

/-- The backtick-count loop (source lines 484-487): the smallest `n ≥ 3`
such that the diff contains no run of `n` backticks.  A run longer than the
diff cannot occur, so `diff.length + 1` steps of fuel always suffice. -/
def fenceLenFrom (diff : List Char) : Nat → Nat → Nat
  | n, 0 => n
  | n, fuel + 1 =>
    if (findSubstrIdx diff (List.replicate n backtickChar)).isSome then
      fenceLenFrom diff (n + 1) fuel
    else n

def fenceLen (diff : String) : Nat := fenceLenFrom diff.toList 3 (diff.length + 1)

/-- The fenced-diff rendering (source line 488). -/
def fenceDiff (diff : String) : String :=
  let fence := String.mk (List.replicate (fenceLen diff) backtickChar)
  fence ++ "diff\n" ++ diff ++ fence ++ "\n\n"

/-- `applyFileEdits` (source lines 414-495) as a state transformer: read and
normalize, snapshot unless dry-run, run the edit loop, and only on full
success build the diff and write the file. -/
def applyFileEdits (ctfp : String → String → String → String → String → String → String)
    (st : SState) (filePath : String) (edits : List Edit) (dryRun : Bool) :
    Except String String × SState :=
  match readFile st filePath with
  | none => (Except.error ("ENOENT: " ++ filePath), st)
  | some raw =>
    let content := normalizeLineEndings raw
    let st1 := if dryRun then st else saveToHistory st filePath content
    match applyEditsLoop content edits with
    | Except.error msg => (Except.error msg, st1)
    | Except.ok modifiedContent =>
      let formattedDiff := fenceDiff (createUnifiedDiff ctfp content modifiedContent filePath)
      let st2 := if dryRun then st1 else writeFile st1 filePath modifiedContent
      (Except.ok formattedDiff, st2)

/-! ## LineInserter: `insertAtLine` (source lines 498-523) -/

/-- The splice of `insertAtLine` (source lines 504-511): prepend at line 0,
else insert after `min insertLine lines.length`. -/
def spliceLines (lines : List String) (insertLine : Nat) (newText : String) : List String :=
  if insertLine = 0 then newText :: lines
  else
    let actualLine := min insertLine lines.length
    lines.take actualLine ++ newText :: lines.drop actualLine

/-- `insertAtLine` (source lines 498-523).  Note: unlike `applyFileEdits`,
the content read at line 499 is *not* passed through
`normalizeLineEndings`. -/
def insertAtLine (ctfp : String → String → String → String → String → String → String)
    (st : SState) (filePath : String) (insertLine : Nat) (newText : String) :
    Except String String × SState :=
  match readFile st filePath with
  | none => (Except.error ("ENOENT: " ++ filePath), st)
  | some content =>
    let st1 := saveToHistory st filePath content
    let lines := spliceLines (splitLines content) insertLine newText
    let modifiedContent := joinLines lines
    let st2 := writeFile st1 filePath modifiedContent
    (Except.ok (fenceDiff (createUnifiedDiff ctfp content modifiedContent filePath)), st2)

/-! ## Undo: the `undo_edit` handler (source lines 706-727) -/

/-- The `undo_edit` handler: pop the most recent snapshot, store the
shortened stack back, read the current content (for the diff), write the
popped snapshot, and return the reversion diff. -/
def undoEdit (ctfp : String → String → String → String → String → String → String)
    (st : SState) (validPath : String) : Except String String × SState :=
  match lookupAssoc st.editHistory validPath with
  | none => (Except.error ("No edit history available for " ++ validPath), st)
  | some history =>
    if history.isEmpty then
      (Except.error ("No edit history available for " ++ validPath), st)
    else
      match history.getLast? with
      | none => (Except.error ("No edit history available for " ++ validPath), st)
      | some previousContent =>
        let st1 := { st with editHistory := setAssoc st.editHistory validPath history.dropLast }
        match readFile st1 validPath with
        | none => (Except.error ("ENOENT: " ++ validPath), st1)
        | some currentContent =>
          let st2 := writeFile st1 validPath previousContent
          (Except.ok
            (fenceDiff (createUnifiedDiff ctfp currentContent previousContent validPath)
              ++ "Reverted to previous version."), st2)

/-! ## Helper lemmas -/

/-- Characterization of the linear scan: it returns exactly the least index
in its range satisfying the predicate. -/
theorem findIdxFrom_eq_some_iff (p : Nat → Bool) :
    ∀ (steps start i : Nat),
      findIdxFrom p start steps = some i ↔
        (start ≤ i ∧ i < start + steps ∧ p i = true ∧
          ∀ j, start ≤ j → j < i → p j = false) := by
  intro steps
  induction steps with
  | zero =>
    intro start i
    simp only [findIdxFrom]
    constructor
    · intro h; exact absurd h (by simp)
    · intro ⟨h1, h2, _⟩; omega
  | succ n ih =>
    intro start i
    simp only [findIdxFrom]
    cases hp : p start with
    | true =>
      simp only [if_pos rfl]
      constructor
      · intro h
        have hi : i = start := by
          have := Option.some.inj h; omega
        subst hi
        exact ⟨Nat.le_refl _, by omega, hp, fun j h1 h2 => absurd h2 (by omega)⟩
      · intro ⟨h1, _, _, hmin⟩
        have hi : i = start := by
          by_contra hne
          have : start < i := by omega
          have := hmin start (Nat.le_refl _) this
          rw [hp] at this; exact absurd this (by simp)
        rw [hi]; simp
    | false =>
      simp only [hp, Bool.false_eq_true, if_false]
      rw [ih (start + 1) i]
      constructor
      · intro ⟨h1, h2, h3, hmin⟩
        refine ⟨by omega, by omega, h3, fun j hj1 hj2 => ?_⟩
        rcases Nat.eq_or_lt_of_le hj1 with heq | hlt
        · rw [← heq]; exact hp
        · exact hmin j hlt hj2
      · intro ⟨h1, h2, h3, hmin⟩
        have hstart : start < i := by
          rcases Nat.eq_or_lt_of_le h1 with heq | hlt
          · rw [← heq] at h3; rw [hp] at h3; exact absurd h3 (by simp)
          · exact hlt
        exact ⟨by omega, by omega, h3, fun j hj1 hj2 => hmin j (by omega) hj2⟩

theorem splitOnChar_ne_nil (sep : Char) (l : List Char) : splitOnChar sep l ≠ [] := by
  cases l with
  | nil => simp [splitOnChar]
  | cons c rest =>
    simp only [splitOnChar]
    by_cases h : c = sep
    · simp [h]
    · cases hr : splitOnChar sep rest <;> simp [h]

theorem splitLines_length_pos (s : String) : 0 < (splitLines s).length := by
  unfold splitLines
  rw [List.length_map]
  cases hs : splitOnChar '\n' s.toList with
  | nil => exact absurd hs (splitOnChar_ne_nil _ _)
  | cons a t => simp

theorem lookupAssoc_setAssoc_self {α : Type} (m : List (String × α)) (k : String) (v : α) :
    lookupAssoc (setAssoc m k v) k = some v := by
  induction m with
  | nil => simp [setAssoc, lookupAssoc]
  | cons kv rest ih =>
    by_cases h : kv.1 = k
    · simp [setAssoc, lookupAssoc, h]
    · simp [setAssoc, lookupAssoc, h, ih]

theorem readFile_writeFile_self (st : SState) (p c : String) :
    readFile (writeFile st p c) p = some c := by
  simp [readFile, writeFile, lookupAssoc_setAssoc_self]

theorem readFile_saveToHistory (st : SState) (p q c : String) :
    readFile (saveToHistory st p c) q = readFile st q := rfl

/-- The history stack stored by `saveToHistory`. -/
theorem lookupAssoc_saveToHistory_self (st : SState) (p c : String) :
    lookupAssoc (saveToHistory st p c).editHistory p =
      some (if ((lookupAssoc st.editHistory p).getD [] ++ [c]).length > MAX_HISTORY_SIZE
            then ((lookupAssoc st.editHistory p).getD [] ++ [c]).drop 1
            else (lookupAssoc st.editHistory p).getD [] ++ [c]) := by
  simp only [saveToHistory, lookupAssoc_setAssoc_self]

/-- A pushed-and-possibly-evicted stack is nonempty and ends with the pushed
snapshot. -/
theorem push_evict_getLast (h0 : List String) (c : String) :
    ((if (h0 ++ [c]).length > MAX_HISTORY_SIZE then (h0 ++ [c]).drop 1 else h0 ++ [c]).getLast?
        = some c)
    ∧ ((if (h0 ++ [c]).length > MAX_HISTORY_SIZE then (h0 ++ [c]).drop 1 else h0 ++ [c]).isEmpty
        = false) := by
  by_cases hlen : (h0 ++ [c]).length > MAX_HISTORY_SIZE
  · have hne : h0 ≠ [] := by
      intro hnil
      rw [hnil] at hlen
      simp [MAX_HISTORY_SIZE] at hlen
    cases h0 with
    | nil => exact absurd rfl hne
    | cons x xs =>
      have hdrop : (x :: xs ++ [c]).drop 1 = xs ++ [c] := by simp
      rw [if_pos hlen, hdrop]
      exact ⟨List.getLast?_concat _, by simp⟩
  · simp only [if_neg hlen]
    exact ⟨List.getLast?_concat _, by simp⟩

/-! ## Theorems about PathGuard -/

theorem validatePathParent_ok (env : Env) (absolute : String) :
    exceptOk (validatePathParent env absolute)
      = optAny (allowedBy env) (env.realpath (dirname absolute)) := by
  simp only [validatePathParent]
  cases hp : env.realpath (dirname absolute) with
  | none => simp [exceptOk, optAny]
  | some pp =>
    cases hP : env.allowedDirectories.any fun dir => startsWithStr (normalizePath pp) dir with
    | false => simp [exceptOk, optAny, allowedBy, hP]
    | true => simp [exceptOk, optAny, allowedBy, hP]

/-- C2 (amended): `validatePath` succeeds exactly when the canonical
absolute form of the request passes the raw string-prefix root test and
either the real path resolves to a path passing that test, or the parent's
real path does (the parent fallback also runs when the real path exists but
escapes the roots, because the symlink denial is swallowed — see
`validatePath`). -/
theorem c2_resolve_iff (env : Env) (p : String) :
    exceptOk (validatePath env p)
      = (allowedBy env (absolutize env p)
          && (optAny (allowedBy env) (env.realpath (absolutize env p))
              || optAny (allowedBy env) (env.realpath (dirname (absolutize env p))))) := by
  simp only [validatePath]
  cases hA : env.allowedDirectories.any fun dir =>
      startsWithStr (normalizePath (absolutize env p)) dir with
  | false => simp [exceptOk, allowedBy, hA]
  | true =>
    simp only [Bool.not_true, Bool.false_eq_true, if_false]
    cases hr : env.realpath (absolutize env p) with
    | none =>
      rw [validatePathParent_ok]
      simp [allowedBy, hA, optAny]
    | some realPath =>
      dsimp only
      cases hR : env.allowedDirectories.any fun dir =>
          startsWithStr (normalizePath realPath) dir with
      | false =>
        rw [show (if (!false) = true then validatePathParent env (absolutize env p)
              else Except.ok realPath) = validatePathParent env (absolutize env p) from rfl,
          validatePathParent_ok]
        simp [allowedBy, hA, hR, optAny]
      | true =>
        simp [exceptOk, allowedBy, hA, hR, optAny]

/-- Formalization of the spec's words "path-segment-respecting prefix": the
candidate equals the root, or extends it with a path separator at the
boundary.  Used only to compare the claimed behavior with the code's raw
`startsWith` test. -/
def segmentRespects (root p : String) : Bool :=
  p = root || startsWithStr p (root ++ "/")

/-- C2 (counterexample): with the single root `/a/allowed`, the existing
path `/a/allowed-evil` is accepted by `validatePath` even though no root is
a path-segment-respecting prefix of it. -/
theorem c2_segment_cex :
    validatePath
        ⟨"/home/u", "/cwd", ["/a/allowed"],
          fun q => if q = "/a/allowed-evil" then some "/a/allowed-evil" else none⟩
        "/a/allowed-evil"
      = Except.ok "/a/allowed-evil"
    ∧ segmentRespects "/a/allowed" "/a/allowed-evil" = false := by
  exact ⟨rfl, by decide⟩

/-- C1: a symlink that sits inside an allowed root but whose real path is
outside every root is *not* rejected: the access-denied throw for the
symlink target is swallowed by the surrounding catch, the parent-directory
fallback approves (the parent `/allowed` is a root), and the symlink path
itself is returned. -/
theorem c1_symlink_target_escapes :
    validatePath
        ⟨"/home/u", "/cwd", ["/allowed"],
          fun q =>
            if q = "/allowed/link" then some "/outside/secret"
            else if q = "/allowed" then some "/allowed" else none⟩
        "/allowed/link"
      = Except.ok "/allowed/link" := rfl

/-! ## Theorems about PatchEngine -/

/-- C4: whenever the normalized `oldText` occurs literally in the buffer,
the edit is resolved by the exact pass — a `String.replace` of the first
occurrence — and the fuzzy window scan never runs; moreover the occurrence
replaced is the lowest-index one (no earlier position carries the
pattern). -/
theorem c4_exact_pass (buffer : String) (e : Edit)
    (h : containsSubstr buffer (normalizeLineEndings e.oldText) = true) :
    applyOneEdit buffer e
      = some (jsReplaceFirst buffer (normalizeLineEndings e.oldText)
          (normalizeLineEndings e.newText))
    ∧ ∀ j, j < (findSubstrIdx buffer.toList (normalizeLineEndings e.oldText).toList).getD 0 →
        substrAt buffer.toList (normalizeLineEndings e.oldText).toList j = false := by
  constructor
  · simp [applyOneEdit, h]
  · intro j hj
    unfold containsSubstr at h
    cases hfind : findSubstrIdx buffer.toList (normalizeLineEndings e.oldText).toList with
    | none => rw [hfind] at h; exact absurd h (by simp)
    | some i =>
      rw [hfind] at hj
      unfold findSubstrIdx at hfind
      have := (findIdxFrom_eq_some_iff _ _ _ _).mp hfind
      exact this.2.2.2 j (Nat.zero_le j) (by simpa using hj)

/-- C4 witness: buffer `"foo\n foo \n"` contains `"foo"` literally (and a
whitespace-trimmed window would also match the second line); the exact pass
replaces the first occurrence. -/
theorem c4_exact_pass_witness :
    containsSubstr "foo\n foo \n" (normalizeLineEndings "foo") = true
    ∧ (applyOneEdit "foo\n foo \n" ⟨"foo", "FOO"⟩
        = some (jsReplaceFirst "foo\n foo \n" (normalizeLineEndings "foo")
            (normalizeLineEndings "FOO"))
      ∧ ∀ j, j < (findSubstrIdx "foo\n foo \n".toList (normalizeLineEndings "foo").toList).getD 0 →
          substrAt "foo\n foo \n".toList (normalizeLineEndings "foo").toList j = false)
    ∧ jsReplaceFirst "foo\n foo \n" "foo" "FOO" = "FOO\n foo \n" := by
  refine ⟨by decide, c4_exact_pass "foo\n foo \n" ⟨"foo", "FOO"⟩ (by decide), by decide⟩

/-- C5: when the exact pass does not fire, the fuzzy pass replaces exactly
the lowest-index whitespace-trimmed window: if index `i` matches and no
smaller index does, the produced buffer is the splice at `i`. -/
theorem c5_first_window (buffer : String) (e : Edit) (i : Nat)
    (hne : containsSubstr buffer (normalizeLineEndings e.oldText) = false)
    (hm : isMatchAt (splitLines (normalizeLineEndings e.oldText)) (splitLines buffer) i = true)
    (hmin : ∀ j, j < i →
        isMatchAt (splitLines (normalizeLineEndings e.oldText)) (splitLines buffer) j = false) :
    applyOneEdit buffer e
      = some (fuzzyResultAt (splitLines buffer) (splitLines (normalizeLineEndings e.oldText))
          (normalizeLineEndings e.newText) i) := by
  have hpos : 0 < (splitLines (normalizeLineEndings e.oldText)).length :=
    splitLines_length_pos _
  have hfit : (splitLines (normalizeLineEndings e.oldText)).length
      ≤ (splitLines buffer).length - i ∧ i ≤ (splitLines buffer).length := by
    unfold isMatchAt at hm
    rw [Bool.and_eq_true] at hm
    have hlen := hm.1
    rw [beq_iff_eq, List.length_take, List.length_drop] at hlen
    constructor
    · omega
    · by_contra hgt
      push_neg at hgt
      omega
  have hfmi : firstMatchIdx (splitLines (normalizeLineEndings e.oldText)) (splitLines buffer)
      = some i := by
    unfold firstMatchIdx
    rw [if_neg (by omega)]
    exact (findIdxFrom_eq_some_iff _ _ _ _).mpr
      ⟨Nat.zero_le i, by omega, hm, fun j _ hj => hmin j hj⟩
  simp [applyOneEdit, hne, hfmi]

/-- C5 witness: buffer lines `["  foo","  bar","  foo","  bar"]` with
`oldText = "foo\nbar"`: the window at index 0 matches, so the replacement
happens at the first pair, not the second. -/
theorem c5_first_window_witness :
    containsSubstr "  foo\n  bar\n  foo\n  bar" (normalizeLineEndings "foo\nbar") = false
    ∧ isMatchAt (splitLines (normalizeLineEndings "foo\nbar"))
        (splitLines "  foo\n  bar\n  foo\n  bar") 0 = true
    ∧ isMatchAt (splitLines (normalizeLineEndings "foo\nbar"))
        (splitLines "  foo\n  bar\n  foo\n  bar") 2 = true
    ∧ applyOneEdit "  foo\n  bar\n  foo\n  bar" ⟨"foo\nbar", "baz\nqux"⟩
        = some (fuzzyResultAt (splitLines "  foo\n  bar\n  foo\n  bar")
            (splitLines (normalizeLineEndings "foo\nbar")) (normalizeLineEndings "baz\nqux") 0)
    ∧ fuzzyResultAt (splitLines "  foo\n  bar\n  foo\n  bar")
        (splitLines (normalizeLineEndings "foo\nbar")) (normalizeLineEndings "baz\nqux") 0
        = "  baz\nqux\n  foo\n  bar" := by
  refine ⟨by decide, by decide, by decide, ?_, by decide⟩
  exact c5_first_window "  foo\n  bar\n  foo\n  bar" ⟨"foo\nbar", "baz\nqux"⟩ 0 (by decide)
    (by decide) (fun j hj => absurd hj (Nat.not_lt_zero j))

/-- A concrete instantiation of the external `createTwoFilesPatch`
parameter, used when evaluating the handlers on concrete states (no claim
inspects the diff body). -/
def ctfpZero : String → String → String → String → String → String → String :=
  fun _ _ _ _ _ _ => ""

/-- C3 (counterexample): on buffer `"  foo\n  bar\n"` with
`oldText = "foo\nbar"`, `newText = "baz\nqux"`, the result is *not*
`"  baz\n  qux\n"`: the second old line `"bar"` has no leading whitespace,
so the `oldIndent && newIndent` test fails and `"qux"` is emitted without
the captured indentation. -/
theorem c3_indent_cex :
    readFile (applyFileEdits ctfpZero ⟨[("/f", "  foo\n  bar\n")], []⟩ "/f"
        [⟨"foo\nbar", "baz\nqux"⟩] false).2 "/f"
      ≠ some "  baz\n  qux\n" := by decide

/-- C3 (amended): the run produces `"  baz\nqux\n"` — the first replacement
line receives the indentation captured from the matched window's first
buffer line; a later replacement line receives it only when both the
corresponding old line and the new line have nonempty leading whitespace,
and is emitted unchanged otherwise. -/
theorem c3_indent_amended :
    readFile (applyFileEdits ctfpZero ⟨[("/f", "  foo\n  bar\n")], []⟩ "/f"
        [⟨"foo\nbar", "baz\nqux"⟩] false).2 "/f"
      = some "  baz\nqux\n" := by decide

/-- What replacing the first occurrence of `old` by the *literal* `new`
would produce; this follows the wording of the claim, for comparison with
the `String.replace` semantics actually used by the exact pass. -/
def literalReplaceFirst (s old new : String) : String :=
  match findSubstrIdx s.toList old.toList with
  | none => s
  | some i => String.mk (s.toList.take i ++ new.toList ++ s.toList.drop (i + old.toList.length))

/-- C10: the exact pass interprets JavaScript replacement patterns: with
buffer `"abc"`, `oldText = "b"` (a literal substring) and
`newText = "$&$&"`, the result is `"abbc"` (each `$&` expands to the
match), not the literal replacement `"a$&$&c"`. -/
theorem c10_dollar_patterns :
    containsSubstr "abc" (normalizeLineEndings "b") = true
    ∧ applyOneEdit "abc" ⟨"b", "$&$&"⟩ = some "abbc"
    ∧ literalReplaceFirst "abc" "b" "$&$&" = "a$&$&c"
    ∧ applyOneEdit "abc" ⟨"b", "$&$&"⟩ ≠ some (literalReplaceFirst "abc" "b" "$&$&") := by
  refine ⟨by decide, by decide, by decide, by decide⟩

instance : DecidableEq (Except String String)
  | Except.ok a, Except.ok b =>
    if h : a = b then isTrue (by rw [h]) else isFalse (by intro hc; cases hc; exact h rfl)
  | Except.ok _, Except.error _ => isFalse fun hc => Except.noConfusion hc
  | Except.error _, Except.ok _ => isFalse fun hc => Except.noConfusion hc
  | Except.error a, Except.error b =>
    if h : a = b then isTrue (by rw [h]) else isFalse (by intro hc; cases hc; exact h rfl)

/-! ## Theorems about state: failure atomicity, undo, history -/

/-- Inversion of a failing non-dry-run `applyFileEdits`: the snapshot is
taken, the error is returned, and nothing else happens. -/
theorem applyFileEdits_error_state
    (ctfp : String → String → String → String → String → String → String)
    (st : SState) (p : String) (edits : List Edit) (raw m : String)
    (hread : readFile st p = some raw)
    (hloop : applyEditsLoop (normalizeLineEndings raw) edits = Except.error m) :
    applyFileEdits ctfp st p edits false
      = (Except.error m, saveToHistory st p (normalizeLineEndings raw)) := by
  unfold applyFileEdits
  rw [hread]
  simp only [Bool.false_eq_true, if_false]
  rw [hloop]

/-- Inversion of a successful non-dry-run `applyFileEdits`: snapshot, then
write the loop's output. -/
theorem applyFileEdits_ok_state
    (ctfp : String → String → String → String → String → String → String)
    (st : SState) (p : String) (edits : List Edit) (raw m : String)
    (hread : readFile st p = some raw)
    (hloop : applyEditsLoop (normalizeLineEndings raw) edits = Except.ok m) :
    applyFileEdits ctfp st p edits false
      = (Except.ok (fenceDiff (createUnifiedDiff ctfp (normalizeLineEndings raw) m p)),
          writeFile (saveToHistory st p (normalizeLineEndings raw)) p m) := by
  unfold applyFileEdits
  rw [hread]
  simp only [Bool.false_eq_true, if_false]
  rw [hloop]

/-- C6: when some edit in the sequence matches neither exactly nor fuzzily,
`applyFileEdits` returns the `Could not find exact match` failure and the
file contents are untouched — the write only happens after every edit has
succeeded. -/
theorem c6_no_write_on_failure
    (ctfp : String → String → String → String → String → String → String)
    (st : SState) (p : String) (edits : List Edit) (raw m : String)
    (hread : readFile st p = some raw)
    (hloop : applyEditsLoop (normalizeLineEndings raw) edits = Except.error m) :
    (applyFileEdits ctfp st p edits false).1 = Except.error m
    ∧ (applyFileEdits ctfp st p edits false).2.files = st.files
    ∧ readFile (applyFileEdits ctfp st p edits false).2 p = some raw := by
  rw [applyFileEdits_error_state ctfp st p edits raw m hread hloop]
  exact ⟨rfl, rfl, hread⟩

/-- C6 witness: the first edit succeeds, the second finds no match; the
call fails with the second edit's message and the on-disk content is
byte-identical to the original. -/
theorem c6_no_write_on_failure_witness :
    readFile (⟨[("/f", "hello\n")], []⟩ : SState) "/f" = some "hello\n"
    ∧ applyEditsLoop (normalizeLineEndings "hello\n") [⟨"hello", "hi"⟩, ⟨"nope", "x"⟩]
        = Except.error "Could not find exact match for edit:\nnope"
    ∧ ((applyFileEdits ctfpZero ⟨[("/f", "hello\n")], []⟩ "/f"
          [⟨"hello", "hi"⟩, ⟨"nope", "x"⟩] false).1
        = Except.error "Could not find exact match for edit:\nnope"
      ∧ (applyFileEdits ctfpZero ⟨[("/f", "hello\n")], []⟩ "/f"
          [⟨"hello", "hi"⟩, ⟨"nope", "x"⟩] false).2.files
          = (⟨[("/f", "hello\n")], []⟩ : SState).files
      ∧ readFile (applyFileEdits ctfpZero ⟨[("/f", "hello\n")], []⟩ "/f"
          [⟨"hello", "hi"⟩, ⟨"nope", "x"⟩] false).2 "/f" = some "hello\n") :=
  ⟨by decide, by decide,
    c6_no_write_on_failure ctfpZero ⟨[("/f", "hello\n")], []⟩ "/f"
      [⟨"hello", "hi"⟩, ⟨"nope", "x"⟩] "hello\n" _ (by decide) (by decide)⟩

/-- Undo after a snapshot-then-write cycle: the handler succeeds and the
file again holds the snapshotted content. -/
theorem undoEdit_after_write_save
    (ctfp : String → String → String → String → String → String → String)
    (st : SState) (p c m : String) :
    exceptOk (undoEdit ctfp (writeFile (saveToHistory st p c) p m) p).1 = true
    ∧ readFile (undoEdit ctfp (writeFile (saveToHistory st p c) p m) p).2 p = some c := by
  set st1 := writeFile (saveToHistory st p c) p m with hst1
  set h0 := (lookupAssoc st.editHistory p).getD [] with hh0
  set hist := if (h0 ++ [c]).length > MAX_HISTORY_SIZE then (h0 ++ [c]).drop 1 else h0 ++ [c]
    with hhist
  have hlook : lookupAssoc st1.editHistory p = some hist := by
    rw [hst1]
    exact lookupAssoc_saveToHistory_self st p c
  have hlast := push_evict_getLast h0 c
  rw [← hhist] at hlast
  unfold undoEdit
  rw [hlook]
  dsimp only
  rw [hlast.2]
  simp only [Bool.false_eq_true, if_false]
  rw [hlast.1]
  dsimp only
  have hcur : readFile ({ st1 with editHistory := setAssoc st1.editHistory p hist.dropLast }) p
      = some m := by
    show lookupAssoc st1.files p = some m
    rw [hst1]
    exact readFile_writeFile_self _ _ _
  rw [hcur]
  dsimp only
  exact ⟨rfl, readFile_writeFile_self _ _ _⟩

/-- C7: for a file whose content is already `\n`-normalized, a successful
non-dry-run `applyFileEdits` followed by `undo_edit` on the same resolved
path succeeds and restores the file byte-identically. -/
theorem c7_undo_roundtrip
    (ctfp : String → String → String → String → String → String → String)
    (st : SState) (p : String) (edits : List Edit) (raw d : String) (st1 : SState)
    (hread : readFile st p = some raw)
    (hnorm : normalizeLineEndings raw = raw)
    (happly : applyFileEdits ctfp st p edits false = (Except.ok d, st1)) :
    exceptOk (undoEdit ctfp st1 p).1 = true
    ∧ readFile (undoEdit ctfp st1 p).2 p = some raw := by
  cases hloop : applyEditsLoop (normalizeLineEndings raw) edits with
  | error msg =>
    rw [applyFileEdits_error_state ctfp st p edits raw msg hread hloop] at happly
    simp [Prod.ext_iff] at happly
  | ok m =>
    rw [applyFileEdits_ok_state ctfp st p edits raw m hread hloop] at happly
    have hst1 : st1 = writeFile (saveToHistory st p (normalizeLineEndings raw)) p m :=
      (congrArg Prod.snd happly).symm
    rw [hst1, hnorm]
    exact undoEdit_after_write_save ctfp st p raw m

/-- C7 witness: apply `a → b` to a one-line file and undo; the original
content `"a\n"` is restored. -/
theorem c7_undo_roundtrip_witness :
    readFile (⟨[("/f", "a\n")], []⟩ : SState) "/f" = some "a\n"
    ∧ normalizeLineEndings "a\n" = "a\n"
    ∧ applyFileEdits ctfpZero ⟨[("/f", "a\n")], []⟩ "/f" [⟨"a", "b"⟩] false
        = (Except.ok "```diff\n```\n\n", ⟨[("/f", "b\n")], [("/f", ["a\n"])]⟩)
    ∧ (exceptOk (undoEdit ctfpZero (⟨[("/f", "b\n")], [("/f", ["a\n"])]⟩ : SState) "/f").1 = true
      ∧ readFile (undoEdit ctfpZero (⟨[("/f", "b\n")], [("/f", ["a\n"])]⟩ : SState) "/f").2 "/f"
          = some "a\n") :=
  ⟨by decide, by decide, by decide,
    c7_undo_roundtrip ctfpZero ⟨[("/f", "a\n")], []⟩ "/f" [⟨"a", "b"⟩] "a\n"
      "```diff\n```\n\n" ⟨[("/f", "b\n")], [("/f", ["a\n"])]⟩
      (by decide) (by decide) (by decide)⟩

/-- A sequence of snapshots of contents `cs` on path `p` (the history
effect of a sequence of mutating operations). -/
def pushAll (st : SState) (p : String) (cs : List String) : SState :=
  cs.foldl (fun s c => saveToHistory s p c) st

/-- Invariant of repeated `saveToHistory`: starting from a stack `h` of at
most `MAX_HISTORY_SIZE` entries, the stack ends up holding the last
`MAX_HISTORY_SIZE` entries of `h ++ cs`. -/
theorem pushAll_history (p : String) :
    ∀ (cs : List String) (st : SState) (h : List String),
      (lookupAssoc st.editHistory p).getD [] = h → h.length ≤ MAX_HISTORY_SIZE →
      (lookupAssoc (pushAll st p cs).editHistory p).getD []
        = (h ++ cs).drop (h.length + cs.length - MAX_HISTORY_SIZE) := by
  intro cs
  induction cs with
  | nil =>
    intro st h hh hlen
    have hz : h.length + ([] : List String).length - MAX_HISTORY_SIZE = 0 := by
      simp only [List.length_nil]; omega
    rw [pushAll, List.foldl_nil, hh, hz, List.append_nil, List.drop_zero]
  | cons c cs ih =>
    intro st h hh hlen
    have hstep : pushAll st p (c :: cs) = pushAll (saveToHistory st p c) p cs := by
      rw [pushAll, List.foldl_cons]; rfl
    rw [hstep]
    have hsave : (lookupAssoc (saveToHistory st p c).editHistory p).getD []
        = (if (h ++ [c]).length > MAX_HISTORY_SIZE then (h ++ [c]).drop 1 else h ++ [c]) := by
      rw [lookupAssoc_saveToHistory_self, hh]; rfl
    by_cases hev : (h ++ [c]).length > MAX_HISTORY_SIZE
    · -- eviction step: the stack was full
      have hfull : h.length = MAX_HISTORY_SIZE := by
        rw [List.length_append, List.length_singleton] at hev; omega
      cases h with
      | nil => exact absurd hev (by simp [MAX_HISTORY_SIZE])
      | cons x xs =>
        have hdrop : ((x :: xs) ++ [c]).drop 1 = xs ++ [c] := by simp
        rw [if_pos hev, hdrop] at hsave
        rw [List.length_cons] at hfull
        have hlen2 : (xs ++ [c]).length ≤ MAX_HISTORY_SIZE := by
          rw [List.length_append, List.length_singleton]
          omega
        have hrec := ih (saveToHistory st p c) (xs ++ [c]) hsave hlen2
        rw [hrec]
        have hidx1 : (xs ++ [c]).length + cs.length - MAX_HISTORY_SIZE = cs.length := by
          rw [List.length_append, List.length_singleton]
          omega
        have hidx2 : (x :: xs).length + (c :: cs).length - MAX_HISTORY_SIZE = cs.length + 1 := by
          rw [List.length_cons, List.length_cons]
          omega
        rw [hidx1, hidx2, List.append_assoc, List.singleton_append, List.cons_append,
          List.drop_succ_cons]
    · -- plain push
      rw [if_neg hev] at hsave
      have hlen2 : (h ++ [c]).length ≤ MAX_HISTORY_SIZE := by omega
      have hrec := ih (saveToHistory st p c) (h ++ [c]) hsave hlen2
      rw [hrec]
      have hidx : (h ++ [c]).length + cs.length = h.length + (c :: cs).length := by
        rw [List.length_append, List.length_singleton, List.length_cons]
        omega
      rw [hidx, List.append_assoc, List.singleton_append]

/-- C8: starting from an empty history for a path, any sequence of
snapshots leaves exactly the most recent `MAX_HISTORY_SIZE` of them (older
ones are evicted from index 0), so the stack never exceeds 10; and undo on
an empty history fails with the no-history error. -/
theorem c8_history_bound
    (ctfp : String → String → String → String → String → String → String)
    (st : SState) (p : String) (cs : List String)
    (h0 : (lookupAssoc st.editHistory p).getD [] = []) :
    (lookupAssoc (pushAll st p cs).editHistory p).getD []
        = cs.drop (cs.length - MAX_HISTORY_SIZE)
    ∧ ((lookupAssoc (pushAll st p cs).editHistory p).getD []).length ≤ MAX_HISTORY_SIZE
    ∧ (undoEdit ctfp st p).1 = Except.error ("No edit history available for " ++ p) := by
  have hmain := pushAll_history p cs st [] h0 (by simp [MAX_HISTORY_SIZE])
  simp only [List.nil_append, List.length_nil, Nat.zero_add] at hmain
  refine ⟨hmain, ?_, ?_⟩
  · rw [hmain, List.length_drop]; omega
  · unfold undoEdit
    cases hl : lookupAssoc st.editHistory p with
    | none => rfl
    | some l =>
      have hnil : l = [] := by rw [hl] at h0; exact h0
      rw [hnil]
      rfl

/-- C8 witness: after 11 snapshots the stack holds exactly the last 10
(`c1` was evicted), and undo on the empty-history state fails with the
no-history error. -/
theorem c8_history_bound_witness :
    (lookupAssoc (⟨[], []⟩ : SState).editHistory "/f").getD [] = []
    ∧ ((lookupAssoc (pushAll ⟨[], []⟩ "/f"
            ["c1", "c2", "c3", "c4", "c5", "c6", "c7", "c8", "c9", "c10", "c11"]).editHistory
          "/f").getD []
        = (["c1", "c2", "c3", "c4", "c5", "c6", "c7", "c8", "c9", "c10", "c11"] :
            List String).drop
            ((["c1", "c2", "c3", "c4", "c5", "c6", "c7", "c8", "c9", "c10", "c11"] :
                List String).length - MAX_HISTORY_SIZE)
      ∧ ((lookupAssoc (pushAll ⟨[], []⟩ "/f"
              ["c1", "c2", "c3", "c4", "c5", "c6", "c7", "c8", "c9", "c10", "c11"]).editHistory
            "/f").getD []).length ≤ MAX_HISTORY_SIZE
      ∧ (undoEdit ctfpZero ⟨[], []⟩ "/f").1
          = Except.error ("No edit history available for " ++ "/f"))
    ∧ (["c1", "c2", "c3", "c4", "c5", "c6", "c7", "c8", "c9", "c10", "c11"] :
          List String).drop
        ((["c1", "c2", "c3", "c4", "c5", "c6", "c7", "c8", "c9", "c10", "c11"] :
            List String).length - MAX_HISTORY_SIZE)
        = ["c2", "c3", "c4", "c5", "c6", "c7", "c8", "c9", "c10", "c11"] :=
  ⟨by decide,
    c8_history_bound ctfpZero ⟨[], []⟩ "/f"
      ["c1", "c2", "c3", "c4", "c5", "c6", "c7", "c8", "c9", "c10", "c11"] (by decide),
    by decide⟩

/-- What the claim predicts for line insertion: splice into the
*normalized* buffer.  This follows the spec's words, for comparison with
`insertAtLine`, which reads the raw content. -/
def insertNormalizedModel (content : String) (insertLine : Nat) (newText : String) : String :=
  joinLines (spliceLines (splitLines (normalizeLineEndings content)) insertLine newText)

/-- C9 (counterexample): on the file `"a\r\nb"`, `insertAtLine` splices
into the raw content and writes `"a\r\nX\nb"`, not the
`"a\nX\nb"` that normalizing the buffer before the mutation would give —
the insertion path never applies `normalizeLineEndings`. -/
theorem c9_normalize_cex :
    readFile (insertAtLine ctfpZero ⟨[("/f", "a\r\nb")], []⟩ "/f" 1 "X").2 "/f"
      = some "a\r\nX\nb"
    ∧ insertNormalizedModel "a\r\nb" 1 "X" = "a\nX\nb"
    ∧ readFile (insertAtLine ctfpZero ⟨[("/f", "a\r\nb")], []⟩ "/f" 1 "X").2 "/f"
        ≠ some (insertNormalizedModel "a\r\nb" 1 "X") :=
  ⟨by decide, by decide, by decide⟩

/-- C9 (amended): the patch operation normalizes the buffer (and the edit
texts) before any comparison or mutation — the content written is the edit
loop's output on the normalized buffer — while the line-insertion
operation splices the raw file content verbatim, without normalization. -/
theorem c9_normalize_amended
    (ctfp : String → String → String → String → String → String → String)
    (st : SState) (p : String) (edits : List Edit) (raw m : String) (n : Nat) (txt : String)
    (hread : readFile st p = some raw)
    (hok : applyEditsLoop (normalizeLineEndings raw) edits = Except.ok m) :
    readFile (applyFileEdits ctfp st p edits false).2 p = some m
    ∧ readFile (insertAtLine ctfp st p n txt).2 p
        = some (joinLines (spliceLines (splitLines raw) n txt)) := by
  constructor
  · rw [applyFileEdits_ok_state ctfp st p edits raw m hread hok]
    exact readFile_writeFile_self _ _ _
  · unfold insertAtLine
    rw [hread]
    dsimp only
    exact readFile_writeFile_self _ _ _

/-- C9 amended witness: patching `"a\r\nb"` with `a → c` writes the
normalized `"c\nb"`; inserting `"X"` after line 1 writes the raw splice
`"a\r\nX\nb"`. -/
theorem c9_normalize_amended_witness :
    readFile (⟨[("/f", "a\r\nb")], []⟩ : SState) "/f" = some "a\r\nb"
    ∧ applyEditsLoop (normalizeLineEndings "a\r\nb") [⟨"a", "c"⟩] = Except.ok "c\nb"
    ∧ (readFile (applyFileEdits ctfpZero ⟨[("/f", "a\r\nb")], []⟩ "/f" [⟨"a", "c"⟩] false).2 "/f"
        = some "c\nb"
      ∧ readFile (insertAtLine ctfpZero ⟨[("/f", "a\r\nb")], []⟩ "/f" 1 "X").2 "/f"
          = some (joinLines (spliceLines (splitLines "a\r\nb") 1 "X"))) :=
  ⟨by decide, by decide,
    c9_normalize_amended ctfpZero ⟨[("/f", "a\r\nb")], []⟩ "/f" [⟨"a", "c"⟩] "a\r\nb" "c\nb" 1 "X"
      (by decide) (by decide)⟩

end TextEditor
